import Mathlib

/-!
A shallow embedding of the divide-and-conquer convex-hull program
(`A1-Convex-Hull-Problem/main.py`).

Points are represented by natural-number handles into a coordinate
assignment `pts : ℕ → Pt`; the mutable `ccwPoint` / `cwPoint` fields of
the Python `Point` objects become an explicit state `HState` mapping a
handle to its two optional neighbour handles.  Python `None` is `none`.
Coordinates are rationals (the program's inputs are decimal literals and
all arithmetic on them is exact for the scenarios considered here).

An access `p.ccwPoint.x` with `p.ccwPoint = None` raises an
`AttributeError` in Python; this is modelled by the `Err.nullPointer`
outcome.  The unbounded `while` loops and the recursion (which does not
structurally terminate for slices of fewer than two points) are given
fuel; running out of fuel is `Err.outOfFuel` and models non-termination
(for instance Python's eventual `RecursionError` on the infinite
recursion that a 0- or 1-point slice causes).

The Python `set` used for stepped-over points is modelled as a
duplicate-free list; since a Python set's iteration order is arbitrary,
the final `for point in previous_points:` loop iterates in an order
chosen by an oracle `ord` (any permutation); `buildHull pts ord` is the
program run with that oracle.
-/

namespace CH

/-- Coordinates of one input site (the immutable part of a Python `Point`). -/
structure Pt where
  x : ℚ
  y : ℚ

/-- The three results of the orientation predicate, named as the
constants `LEFT_TURN`, `RIGHT_TURN`, `COLLINEAR` of the source. -/
inductive Turn where
  | LEFT_TURN
  | RIGHT_TURN
  | COLLINEAR
deriving DecidableEq

/-- The orientation predicate `turn(a, b, c)` of the source:
`det = (a.x - c.x) * (b.y - c.y) - (b.x - c.x) * (a.y - c.y)`,
positive ↦ `LEFT_TURN`, negative ↦ `RIGHT_TURN`, zero ↦ `COLLINEAR`. -/
def turn (a b c : Pt) : Turn :=
  let det := (a.x - c.x) * (b.y - c.y) - (b.x - c.x) * (a.y - c.y)
  if det > 0 then Turn.LEFT_TURN
  else if det < 0 then Turn.RIGHT_TURN
  else Turn.COLLINEAR

/-- The mutable neighbour fields of all `Point` objects: for each handle,
its `ccwPoint` and `cwPoint` (absent = Python `None`). -/
structure HState where
  ccwPoint : ℕ → Option ℕ
  cwPoint : ℕ → Option ℕ

/-- `p.ccwPoint = v` (assignment to the field of one point). -/
def setCcw (s : HState) (i : ℕ) (v : Option ℕ) : HState :=
  { s with ccwPoint := Function.update s.ccwPoint i v }

/-- `p.cwPoint = v` (assignment to the field of one point). -/
def setCw (s : HState) (i : ℕ) (v : Option ℕ) : HState :=
  { s with cwPoint := Function.update s.cwPoint i v }

/-- The prune body `point.cwPoint = None; point.ccwPoint = None`. -/
def clearPt (s : HState) (i : ℕ) : HState :=
  setCcw (setCw s i none) i none

/-- `previous_points.add(i)` on the duplicate-free list model of the set. -/
def addPrev (i : ℕ) (prev : List ℕ) : List ℕ :=
  if i ∈ prev then prev else i :: prev

/-- Failure modes: `nullPointer` is Python's `AttributeError` from
dereferencing a `None` neighbour; `outOfFuel` models non-termination
(including `RecursionError` from unbounded recursion). -/
inductive Err where
  | nullPointer
  | outOfFuel
deriving DecidableEq

/-- The walk-up loop of the merge:
`while turn(l.ccwPoint, l, r) == LEFT_TURN or turn(l, r, r.cwPoint) == LEFT_TURN:`
with the body advancing `l` to `l.ccwPoint` when the first test is a left
turn and otherwise advancing `r` to `r.cwPoint`, recording the node
stepped over in `previous_points`.  The `or` is short-circuiting, so
`r.cwPoint` is only dereferenced when the first test is not a left turn. -/
def walkUp (pts : ℕ → Pt) (s : HState) :
    ℕ → ℕ → ℕ → List ℕ → Except Err (ℕ × ℕ × List ℕ)
  | 0, _, _, _ => Except.error Err.outOfFuel
  | fuel + 1, left_node, right_node, prev =>
    match s.ccwPoint left_node with
    | none => Except.error Err.nullPointer
    | some a =>
      if turn (pts a) (pts left_node) (pts right_node) = Turn.LEFT_TURN then
        walkUp pts s fuel a right_node (addPrev left_node prev)
      else
        match s.cwPoint right_node with
        | none => Except.error Err.nullPointer
        | some b =>
          if turn (pts left_node) (pts right_node) (pts b) = Turn.LEFT_TURN then
            walkUp pts s fuel left_node b (addPrev right_node prev)
          else
            Except.ok (left_node, right_node, prev)

/-- The walk-down loop of the merge (mirror of `walkUp`):
advance `l` to `l.cwPoint` when `turn(l.cwPoint, l, r) == RIGHT_TURN`,
otherwise advance `r` to `r.ccwPoint` when
`turn(l, r, r.ccwPoint) == RIGHT_TURN`. -/
def walkDown (pts : ℕ → Pt) (s : HState) :
    ℕ → ℕ → ℕ → List ℕ → Except Err (ℕ × ℕ × List ℕ)
  | 0, _, _, _ => Except.error Err.outOfFuel
  | fuel + 1, left_node, right_node, prev =>
    match s.cwPoint left_node with
    | none => Except.error Err.nullPointer
    | some a =>
      if turn (pts a) (pts left_node) (pts right_node) = Turn.RIGHT_TURN then
        walkDown pts s fuel a right_node (addPrev left_node prev)
      else
        match s.ccwPoint right_node with
        | none => Except.error Err.nullPointer
        | some b =>
          if turn (pts left_node) (pts right_node) (pts b) = Turn.RIGHT_TURN then
            walkDown pts s fuel left_node b (addPrev right_node prev)
          else
            Except.ok (left_node, right_node, prev)

/-- The relink-and-prune tail of the merge:
`topleft.cwPoint = topright; topright.ccwPoint = topleft;
bottom_left.ccwPoint = bottom_right; bottom_right.cwPoint = bottom_left;
previous_points -= {topright, topleft, bottom_right, bottom_left};
for point in previous_points: point.cwPoint = None; point.ccwPoint = None`,
the final loop iterating in the set order chosen by the oracle `ord`. -/
def relinkAndPrune (ord : List ℕ → List ℕ)
    (topleft topright bottom_left bottom_right : ℕ)
    (prev : List ℕ) (s : HState) : HState :=
  let s3 := setCw (setCcw (setCcw (setCw s topleft (some topright))
      topright (some topleft)) bottom_left (some bottom_right))
      bottom_right (some bottom_left)
  let prevF := prev.filter fun p =>
    p ≠ topright && p ≠ topleft && p ≠ bottom_right && p ≠ bottom_left
  (ord prevF).foldl clearPt s3

/-- The merge phase of `buildHull` starting from the tangent seeds
`l0` (last point of the left slice) and `r0` (first point of the right
slice): walk up, walk down (threading the same stepped-over set), then
relink the two bridges and prune. -/
def mergeFrom (pts : ℕ → Pt) (ord : List ℕ → List ℕ)
    (fuel l0 r0 : ℕ) (s : HState) : Except Err HState :=
  (walkUp pts s fuel l0 r0 []).bind fun w =>
  (walkDown pts s fuel l0 r0 w.2.2).bind fun w2 =>
  Except.ok (relinkAndPrune ord w.1 w.2.1 w2.1 w2.2.1 w2.2.2 s)

/-- Fetching the tangent seeds `left[-1]` and `right[0]`; an out-of-range
index is a Python `IndexError`, modelled like the other failures (this
arm is unreachable whenever the recursive case is entered with at least
four points). -/
def seeds (left right : List ℕ) (k : ℕ → ℕ → Except Err HState) :
    Except Err HState :=
  match left.getLast?, right.head? with
  | some l0, some r0 => k l0 r0
  | _, _ => Except.error Err.nullPointer

/-- `buildHull(points)`: the 2-point base case links a mutual 2-cycle;
the 3-point base case links `p0 ↔ p1` when `turn(p0,p1,p2) == LEFT_TURN`
and the 3-cycle `p0.ccw=p1, p1.ccw=p2, p2.ccw=p0` (with reversed `cw`)
otherwise; every other slice is split at `len // 2`, built recursively,
and merged from the seeds `left[-1]` and `right[0]`.  Slices of fewer
than two points fall into the recursive case with an empty half and
recurse forever (fuel runs out).  The `display` checkpoints of the
source do not touch the neighbour state and are omitted. -/
def buildHull (pts : ℕ → Pt) (ord : List ℕ → List ℕ) :
    ℕ → List ℕ → HState → Except Err HState
  | 0, _, _ => Except.error Err.outOfFuel
  | fuel + 1, points, s =>
    match points with
    | [p0, p1] =>
      Except.ok (setCw (setCcw (setCw (setCcw s p0 (some p1))
        p0 (some p1)) p1 (some p0)) p1 (some p0))
    | [p0, p1, p2] =>
      if turn (pts p0) (pts p1) (pts p2) = Turn.LEFT_TURN then
        Except.ok (setCw (setCcw (setCw (setCcw s p0 (some p1))
          p0 (some p1)) p1 (some p0)) p1 (some p0))
      else
        Except.ok (setCw (setCcw (setCw (setCcw (setCw (setCcw s
          p0 (some p1)) p0 (some p2)) p1 (some p2)) p1 (some p0))
          p2 (some p0)) p2 (some p1))
    | _ =>
      let split := points.length / 2
      let left := points.take split
      let right := points.drop split
      (buildHull pts ord fuel left s).bind fun s1 =>
      (buildHull pts ord fuel right s1).bind fun s2 =>
      seeds left right fun l0 r0 => mergeFrom pts ord fuel l0 r0 s2

/-- The all-`None` neighbour state in which freshly loaded points start. -/
def s0 : HState := { ccwPoint := fun _ => none, cwPoint := fun _ => none }

/-! ### Basic state lemmas -/

@[simp] theorem ccw_setCcw (s : HState) (i : ℕ) (v : Option ℕ) (j : ℕ) :
    (setCcw s i v).ccwPoint j = if j = i then v else s.ccwPoint j := by
  simp [setCcw, Function.update_apply]

@[simp] theorem cw_setCcw (s : HState) (i : ℕ) (v : Option ℕ) (j : ℕ) :
    (setCcw s i v).cwPoint j = s.cwPoint j := rfl

@[simp] theorem ccw_setCw (s : HState) (i : ℕ) (v : Option ℕ) (j : ℕ) :
    (setCw s i v).ccwPoint j = s.ccwPoint j := rfl

@[simp] theorem cw_setCw (s : HState) (i : ℕ) (v : Option ℕ) (j : ℕ) :
    (setCw s i v).cwPoint j = if j = i then v else s.cwPoint j := by
  simp [setCw, Function.update_apply]

/-! ### C6: the orientation predicate -/

/-- Claim C6: for all points `a`, `b`, `c`, `turn a b c` is `LEFT_TURN` exactly
when the determinant `(a.x−c.x)(b.y−c.y) − (b.x−c.x)(a.y−c.y)` is
positive, `RIGHT_TURN` exactly when it is negative, and `COLLINEAR`
exactly when it is zero.  (`turn` is a pure function of the coordinates:
the embedding gives it no access to the neighbour state, so it has no
side effects.) -/
theorem turn_sign_spec (a b c : Pt) :
    (turn a b c = Turn.LEFT_TURN ↔
      0 < (a.x - c.x) * (b.y - c.y) - (b.x - c.x) * (a.y - c.y)) ∧
    (turn a b c = Turn.RIGHT_TURN ↔
      (a.x - c.x) * (b.y - c.y) - (b.x - c.x) * (a.y - c.y) < 0) ∧
    (turn a b c = Turn.COLLINEAR ↔
      (a.x - c.x) * (b.y - c.y) - (b.x - c.x) * (a.y - c.y) = 0) := by
  unfold turn
  rcases lt_trichotomy ((a.x - c.x) * (b.y - c.y) - (b.x - c.x) * (a.y - c.y)) 0
    with h | h | h
  · rw [if_neg (by linarith), if_pos h]
    refine ⟨⟨fun hc => absurd hc (by simp), fun hc => absurd hc (by linarith)⟩,
      ⟨fun _ => h, fun _ => rfl⟩,
      ⟨fun hc => absurd hc (by simp), fun hc => absurd hc (by linarith)⟩⟩
  · rw [if_neg (by linarith), if_neg (by linarith)]
    refine ⟨⟨fun hc => absurd hc (by simp), fun hc => absurd hc (by linarith)⟩,
      ⟨fun hc => absurd hc (by simp), fun hc => absurd hc (by linarith)⟩,
      ⟨fun _ => h, fun _ => rfl⟩⟩
  · rw [if_pos h]
    refine ⟨⟨fun _ => h, fun _ => rfl⟩,
      ⟨fun hc => absurd hc (by simp), fun hc => absurd hc (by linarith)⟩,
      ⟨fun hc => absurd hc (by simp), fun hc => absurd hc (by linarith)⟩⟩

/-! ### C4: the base cases -/

/-- Unfolding of the 2-point base case. -/
theorem buildHull_two (pts : ℕ → Pt) (ord : List ℕ → List ℕ) (fuel : ℕ)
    (s : HState) (p0 p1 : ℕ) :
    buildHull pts ord (fuel + 1) [p0, p1] s =
      Except.ok (setCw (setCcw (setCw (setCcw s p0 (some p1))
        p0 (some p1)) p1 (some p0)) p1 (some p0)) := rfl

/-- Unfolding of the 3-point base case. -/
theorem buildHull_three (pts : ℕ → Pt) (ord : List ℕ → List ℕ) (fuel : ℕ)
    (s : HState) (p0 p1 p2 : ℕ) :
    buildHull pts ord (fuel + 1) [p0, p1, p2] s =
      if turn (pts p0) (pts p1) (pts p2) = Turn.LEFT_TURN then
        Except.ok (setCw (setCcw (setCw (setCcw s p0 (some p1))
          p0 (some p1)) p1 (some p0)) p1 (some p0))
      else
        Except.ok (setCw (setCcw (setCw (setCcw (setCw (setCcw s
          p0 (some p1)) p0 (some p2)) p1 (some p2)) p1 (some p0))
          p2 (some p0)) p2 (some p1)) := rfl

/-- Claim C4: (1) a 2-point slice is linked as a mutual 2-cycle; (2) a 3-point
slice with `turn(p0,p1,p2) == LEFT_TURN` links only `p0 ↔ p1` as a
mutual 2-cycle and leaves `p2`'s neighbours absent (they were absent
before the call and are not written); (3) otherwise (`RIGHT_TURN` or
`COLLINEAR`, in particular for three collinear points) the slice is
linked as the 3-cycle `p0.ccw=p1, p1.ccw=p2, p2.ccw=p0` with the
reverse links in `cwPoint`. -/
theorem buildHull_base_cases (pts : ℕ → Pt) (ord : List ℕ → List ℕ)
    (fuel : ℕ) (s : HState) (i j k : ℕ) :
    (∃ t, buildHull pts ord (fuel + 1) [i, j] s = Except.ok t ∧
      t.ccwPoint i = some j ∧ t.cwPoint i = some j ∧
      t.ccwPoint j = some i ∧ t.cwPoint j = some i) ∧
    (turn (pts i) (pts j) (pts k) = Turn.LEFT_TURN → k ≠ i → k ≠ j →
      s.ccwPoint k = none → s.cwPoint k = none →
      ∃ t, buildHull pts ord (fuel + 1) [i, j, k] s = Except.ok t ∧
        t.ccwPoint i = some j ∧ t.cwPoint i = some j ∧
        t.ccwPoint j = some i ∧ t.cwPoint j = some i ∧
        t.ccwPoint k = none ∧ t.cwPoint k = none) ∧
    (turn (pts i) (pts j) (pts k) ≠ Turn.LEFT_TURN → i ≠ j → i ≠ k → j ≠ k →
      ∃ t, buildHull pts ord (fuel + 1) [i, j, k] s = Except.ok t ∧
        t.ccwPoint i = some j ∧ t.ccwPoint j = some k ∧ t.ccwPoint k = some i ∧
        t.cwPoint i = some k ∧ t.cwPoint j = some i ∧ t.cwPoint k = some j) := by
  refine ⟨⟨_, buildHull_two pts ord fuel s i j, ?_, ?_, ?_, ?_⟩, ?_, ?_⟩
  · rcases eq_or_ne i j with rfl | hij
    · simp
    · simp [hij]
  · rcases eq_or_ne i j with rfl | hij
    · simp
    · simp [hij]
  · simp
  · simp
  · intro ht hki hkj hck hwk
    refine ⟨_, by rw [buildHull_three, if_pos ht], ?_, ?_, ?_, ?_, ?_, ?_⟩
    · rcases eq_or_ne i j with rfl | hij
      · simp
      · simp [hij]
    · rcases eq_or_ne i j with rfl | hij
      · simp
      · simp [hij]
    · simp
    · simp
    · simp [hki, hkj, hck]
    · simp [hki, hkj, hck, hwk]
  · intro ht hij hik hjk
    refine ⟨_, by rw [buildHull_three, if_neg ht], ?_, ?_, ?_, ?_, ?_, ?_⟩ <;>
      simp [hij, hik, hjk, Ne.symm hij, Ne.symm hik, Ne.symm hjk]

/-- Witness for `buildHull_base_cases`: concrete instances discharging
each branch's hypotheses.  `turn((0,0),(1,0),(2,1)) = LEFT_TURN`
exercises the degenerate 3-point branch and
`turn((0,0),(1,0),(2,0)) = COLLINEAR` the 3-cycle branch. -/
theorem buildHull_base_cases_witness :
    (∃ t, buildHull (fun n => if n = 0 then ⟨0, 0⟩ else if n = 1 then ⟨1, 0⟩
        else ⟨2, 1⟩) id 1 [0, 1] s0 = Except.ok t ∧
      t.ccwPoint 0 = some 1 ∧ t.cwPoint 0 = some 1 ∧
      t.ccwPoint 1 = some 0 ∧ t.cwPoint 1 = some 0) ∧
    (∃ t, buildHull (fun n => if n = 0 then ⟨0, 0⟩ else if n = 1 then ⟨1, 0⟩
        else ⟨2, 1⟩) id 1 [0, 1, 2] s0 = Except.ok t ∧
      t.ccwPoint 0 = some 1 ∧ t.cwPoint 0 = some 1 ∧
      t.ccwPoint 1 = some 0 ∧ t.cwPoint 1 = some 0 ∧
      t.ccwPoint 2 = none ∧ t.cwPoint 2 = none) ∧
    (∃ t, buildHull (fun n => if n = 0 then ⟨0, 0⟩ else if n = 1 then ⟨1, 0⟩
        else ⟨2, 0⟩) id 1 [0, 1, 2] s0 = Except.ok t ∧
      t.ccwPoint 0 = some 1 ∧ t.ccwPoint 1 = some 2 ∧ t.ccwPoint 2 = some 0 ∧
      t.cwPoint 0 = some 2 ∧ t.cwPoint 1 = some 0 ∧ t.cwPoint 2 = some 1) := by
  refine ⟨(buildHull_base_cases _ id 0 s0 0 1 2).1,
    (buildHull_base_cases _ id 0 s0 0 1 2).2.1 (by norm_num [turn])
      (by norm_num) (by norm_num) rfl rfl,
    (buildHull_base_cases _ id 0 s0 0 1 2).2.2 (by norm_num [turn]; simp)
      (by norm_num) (by norm_num) (by norm_num)⟩

/-! ### Concrete inputs used below -/

/-- Four collinear points `(0,0),(0,1),(0,2),(0,3)` (already sorted by
`(x, y)`), handles `0..3`. -/
def pts4 : ℕ → Pt := fun i =>
  if i = 0 then ⟨0, 0⟩ else if i = 1 then ⟨0, 1⟩ else if i = 2 then ⟨0, 2⟩
  else ⟨0, 3⟩

/-- Points `(0,0),(1,0),(2,1)` at handles `0,1,2`:
`turn(p2, p0, p1) = LEFT_TURN`. -/
def ptsA : ℕ → Pt := fun i =>
  if i = 0 then ⟨0, 0⟩ else if i = 1 then ⟨1, 0⟩ else ⟨2, 1⟩

/-- Points `(0,0),(1,0),(2,-1),(2,1)` at handles `0..3`:
`turn(p2, p0, p1) = RIGHT_TURN` and `turn(p0, p1, p3) = LEFT_TURN`. -/
def ptsB : ℕ → Pt := fun i =>
  if i = 0 then ⟨0, 0⟩ else if i = 1 then ⟨1, 0⟩ else if i = 2 then ⟨2, -1⟩
  else ⟨2, 1⟩

/-! ### C2: the upper tangent search -/

/-- Unfolding of one iteration of the walk-up loop. -/
theorem walkUp_succ (pts : ℕ → Pt) (s : HState) (fuel l r : ℕ) (prev : List ℕ) :
    walkUp pts s (fuel + 1) l r prev =
      match s.ccwPoint l with
      | none => Except.error Err.nullPointer
      | some a =>
        if turn (pts a) (pts l) (pts r) = Turn.LEFT_TURN then
          walkUp pts s fuel a r (addPrev l prev)
        else
          match s.cwPoint r with
          | none => Except.error Err.nullPointer
          | some b =>
            if turn (pts l) (pts r) (pts b) = Turn.LEFT_TURN then
              walkUp pts s fuel l b (addPrev r prev)
            else
              Except.ok (l, r, prev) := rfl

/-- Unfolding of one iteration of the walk-down loop. -/
theorem walkDown_succ (pts : ℕ → Pt) (s : HState) (fuel l r : ℕ) (prev : List ℕ) :
    walkDown pts s (fuel + 1) l r prev =
      match s.cwPoint l with
      | none => Except.error Err.nullPointer
      | some a =>
        if turn (pts a) (pts l) (pts r) = Turn.RIGHT_TURN then
          walkDown pts s fuel a r (addPrev l prev)
        else
          match s.ccwPoint r with
          | none => Except.error Err.nullPointer
          | some b =>
            if turn (pts l) (pts r) (pts b) = Turn.RIGHT_TURN then
              walkDown pts s fuel l b (addPrev r prev)
            else
              Except.ok (l, r, prev) := rfl

theorem mem_addPrev (i j : ℕ) (prev : List ℕ) :
    i ∈ addPrev j prev ↔ i = j ∨ i ∈ prev := by
  unfold addPrev
  split
  · rename_i h
    constructor
    · exact fun hm => Or.inr hm
    · rintro (rfl | hm)
      · exact h
      · exact hm
  · simp [or_comm]

/-- Unfolding of the recursive case of `buildHull` as an explicit
bind-chain: recurse on the two halves, walk up from the seeds, walk down
threading the stepped-over set, then relink and prune. -/
theorem buildHull_rec (pts : ℕ → Pt) (ord : List ℕ → List ℕ) (fuel : ℕ)
    (points : List ℕ) (s : HState) (h4 : 4 ≤ points.length) :
    buildHull pts ord (fuel + 1) points s =
      (buildHull pts ord fuel (points.take (points.length / 2)) s).bind fun s1 =>
      (buildHull pts ord fuel (points.drop (points.length / 2)) s1).bind fun s2 =>
      seeds (points.take (points.length / 2)) (points.drop (points.length / 2))
        fun l0 r0 => mergeFrom pts ord fuel l0 r0 s2 := by
  match points, h4 with
  | a :: b :: c :: d :: es, _ => exact rfl

/-- When both seed lookups succeed, `seeds` enters the merge. -/
theorem seeds_some (left right : List ℕ) (l0 r0 : ℕ)
    (k : ℕ → ℕ → Except Err HState) (h1 : left.getLast? = some l0)
    (h2 : right.head? = some r0) : seeds left right k = k l0 r0 := by
  unfold seeds
  rw [h1, h2]

/-- Claim C2: in the merge step the upper tangent search starts at the last
point of the left slice and the first point of the right slice with an
empty stepped-over set (part 1); one iteration moves `leftNode` to
`leftNode.ccwPoint` when `turn(leftNode.ccwPoint, leftNode, rightNode)`
is a left turn, recording the old `leftNode` (part 2); otherwise moves
`rightNode` to `rightNode.cwPoint` when
`turn(leftNode, rightNode, rightNode.cwPoint)` is a left turn, recording
the old `rightNode` (part 3); and stops at the current pair when neither
test is a left turn (part 4). -/
theorem upper_tangent_search_spec (pts : ℕ → Pt) (ord : List ℕ → List ℕ)
    (fuel : ℕ) (points : List ℕ) (s : HState) (l0 r0 l r a b : ℕ)
    (prev : List ℕ) :
    (4 ≤ points.length →
      (points.take (points.length / 2)).getLast? = some l0 →
      (points.drop (points.length / 2)).head? = some r0 →
      buildHull pts ord (fuel + 1) points s =
        (buildHull pts ord fuel (points.take (points.length / 2)) s).bind
          fun s1 =>
        (buildHull pts ord fuel (points.drop (points.length / 2)) s1).bind
          fun s2 =>
        (walkUp pts s2 fuel l0 r0 []).bind fun w =>
        (walkDown pts s2 fuel l0 r0 w.2.2).bind fun w2 =>
        Except.ok (relinkAndPrune ord w.1 w.2.1 w2.1 w2.2.1 w2.2.2 s2)) ∧
    (s.ccwPoint l = some a →
      turn (pts a) (pts l) (pts r) = Turn.LEFT_TURN →
      walkUp pts s (fuel + 1) l r prev = walkUp pts s fuel a r (addPrev l prev) ∧
        l ∈ addPrev l prev) ∧
    (s.ccwPoint l = some a →
      turn (pts a) (pts l) (pts r) ≠ Turn.LEFT_TURN →
      s.cwPoint r = some b →
      turn (pts l) (pts r) (pts b) = Turn.LEFT_TURN →
      walkUp pts s (fuel + 1) l r prev = walkUp pts s fuel l b (addPrev r prev) ∧
        r ∈ addPrev r prev) ∧
    (s.ccwPoint l = some a →
      turn (pts a) (pts l) (pts r) ≠ Turn.LEFT_TURN →
      s.cwPoint r = some b →
      turn (pts l) (pts r) (pts b) ≠ Turn.LEFT_TURN →
      walkUp pts s (fuel + 1) l r prev = Except.ok (l, r, prev)) := by
  refine ⟨fun h4 hl0 hr0 => ?_, fun ha ht => ?_, fun ha ht hb ht2 => ?_,
    fun ha ht hb ht2 => ?_⟩
  · rw [buildHull_rec pts ord fuel points s h4]
    simp only [seeds_some _ _ _ _ _ hl0 hr0]
    exact rfl
  · refine ⟨?_, (mem_addPrev l l prev).mpr (Or.inl rfl)⟩
    simp only [walkUp_succ, ha]
    rw [if_pos ht]
  · refine ⟨?_, (mem_addPrev r r prev).mpr (Or.inl rfl)⟩
    simp only [walkUp_succ, ha]
    rw [if_neg ht]
    simp only [hb]
    rw [if_pos ht2]
  · simp only [walkUp_succ, ha]
    rw [if_neg ht]
    simp only [hb]
    rw [if_neg ht2]

/-- Witness for `upper_tangent_search_spec` at the four collinear points
`(0,0),(0,1),(0,2),(0,3)` (part 1 and part 4) and at small handcrafted
states exercising the two advancing branches (parts 2 and 3). -/
theorem upper_tangent_search_spec_witness :
    (buildHull pts4 id 3 [0, 1, 2, 3] s0 =
      (buildHull pts4 id 2 [0, 1] s0).bind fun s1 =>
      (buildHull pts4 id 2 [2, 3] s1).bind fun s2 =>
      (walkUp pts4 s2 2 1 2 []).bind fun w =>
      (walkDown pts4 s2 2 1 2 w.2.2).bind fun w2 =>
      Except.ok (relinkAndPrune id w.1 w.2.1 w2.1 w2.2.1 w2.2.2 s2)) ∧
    (walkUp ptsA (setCcw s0 0 (some 2)) 3 0 1 [] =
      walkUp ptsA (setCcw s0 0 (some 2)) 2 2 1 (addPrev 0 []) ∧
      0 ∈ addPrev 0 ([] : List ℕ)) ∧
    (walkUp ptsB (setCw (setCcw s0 0 (some 2)) 1 (some 3)) 3 0 1 [] =
      walkUp ptsB (setCw (setCcw s0 0 (some 2)) 1 (some 3)) 2 0 3
        (addPrev 1 []) ∧
      1 ∈ addPrev 1 ([] : List ℕ)) ∧
    (walkUp pts4 (setCw (setCcw s0 0 (some 1)) 1 (some 0)) 3 0 1 [] =
      Except.ok (0, 1, [])) := by
  refine ⟨?_, ?_, ?_, ?_⟩
  · exact (upper_tangent_search_spec pts4 id 2 [0, 1, 2, 3] s0 1 2 0 0 0 0
      []).1 (by norm_num) rfl rfl
  · exact (upper_tangent_search_spec ptsA id 2 [] (setCcw s0 0 (some 2)) 0 0
      0 1 2 0 []).2.1 (by simp) (by norm_num [turn, ptsA])
  · exact (upper_tangent_search_spec ptsB id 2 []
      (setCw (setCcw s0 0 (some 2)) 1 (some 3)) 0 0 0 1 2 3 []).2.2.1
      (by simp) (by norm_num [turn, ptsB]; simp) (by simp)
      (by norm_num [turn, ptsB])
  · exact (upper_tangent_search_spec pts4 id 2 []
      (setCw (setCcw s0 0 (some 1)) 1 (some 0)) 0 0 0 1 1 0 []).2.2.2
      (by simp) (by norm_num [turn, pts4]; simp) (by simp)
      (by norm_num [turn, pts4]; simp)

/-! ### C3: relink and prune -/

theorem HState.ext_of (s t : HState) (h1 : s.ccwPoint = t.ccwPoint)
    (h2 : s.cwPoint = t.cwPoint) : s = t := by
  cases s
  cases t
  cases h1
  cases h2
  rfl

theorem ccw_clearPt (s : HState) (p i : ℕ) :
    (clearPt s p).ccwPoint i = if i = p then none else s.ccwPoint i := by
  simp [clearPt]

theorem cw_clearPt (s : HState) (p i : ℕ) :
    (clearPt s p).cwPoint i = if i = p then none else s.cwPoint i := by
  simp [clearPt]

theorem ccw_foldClear (lst : List ℕ) (s : HState) (i : ℕ) :
    (lst.foldl clearPt s).ccwPoint i =
      if i ∈ lst then none else s.ccwPoint i := by
  induction lst generalizing s with
  | nil => simp
  | cons a t ih =>
    rw [List.foldl_cons, ih]
    by_cases hit : i ∈ t
    · simp [hit]
    · by_cases hia : i = a
      · simp [hit, hia, ccw_clearPt]
      · simp [hit, hia, ccw_clearPt]

theorem cw_foldClear (lst : List ℕ) (s : HState) (i : ℕ) :
    (lst.foldl clearPt s).cwPoint i =
      if i ∈ lst then none else s.cwPoint i := by
  induction lst generalizing s with
  | nil => simp
  | cons a t ih =>
    rw [List.foldl_cons, ih]
    by_cases hit : i ∈ t
    · simp [hit]
    · by_cases hia : i = a
      · simp [hit, hia, cw_clearPt]
      · simp [hit, hia, cw_clearPt]

theorem clearPt_comm (s : HState) (i j : ℕ) :
    clearPt (clearPt s i) j = clearPt (clearPt s j) i := by
  rcases eq_or_ne i j with rfl | hij
  · rfl
  · refine HState.ext_of _ _ ?_ ?_ <;>
      simp [clearPt, setCcw, setCw, Function.update_comm hij]

theorem foldClear_perm (l₁ l₂ : List ℕ) (h : l₁.Perm l₂) (s : HState) :
    l₁.foldl clearPt s = l₂.foldl clearPt s :=
  h.foldl_eq' (fun x _ y _ z => clearPt_comm z x y) s

/-- Field-level characterisation of the relink-and-prune step:
a pruned candidate reads `none`; otherwise the lower bridge write at
`bottom_left` (last `ccwPoint` write), then the upper bridge write at
`topright`, then the incoming state.  Mirror order for `cwPoint`. -/
theorem relinkAndPrune_ccw (ord : List ℕ → List ℕ)
    (hord : ∀ l : List ℕ, (ord l).Perm l) (tl tr bl br : ℕ) (prev : List ℕ)
    (s : HState) (i : ℕ) :
    (relinkAndPrune ord tl tr bl br prev s).ccwPoint i =
      if i ∈ prev.filter (fun p => p ≠ tr && p ≠ tl && p ≠ br && p ≠ bl)
        then none
      else if i = bl then some br
      else if i = tr then some tl
      else s.ccwPoint i := by
  unfold relinkAndPrune
  rw [foldClear_perm _ _ (hord _), ccw_foldClear]
  by_cases hm : i ∈ prev.filter (fun p => p ≠ tr && p ≠ tl && p ≠ br && p ≠ bl)
  · simp [hm]
  · simp only [hm, if_false]
    by_cases h1 : i = bl
    · simp [h1]
    · by_cases h2 : i = tr <;> simp [h1, h2]

theorem relinkAndPrune_cw (ord : List ℕ → List ℕ)
    (hord : ∀ l : List ℕ, (ord l).Perm l) (tl tr bl br : ℕ) (prev : List ℕ)
    (s : HState) (i : ℕ) :
    (relinkAndPrune ord tl tr bl br prev s).cwPoint i =
      if i ∈ prev.filter (fun p => p ≠ tr && p ≠ tl && p ≠ br && p ≠ bl)
        then none
      else if i = br then some bl
      else if i = tl then some tr
      else s.cwPoint i := by
  unfold relinkAndPrune
  rw [foldClear_perm _ _ (hord _), cw_foldClear]
  by_cases hm : i ∈ prev.filter (fun p => p ≠ tr && p ≠ tl && p ≠ br && p ≠ bl)
  · simp [hm]
  · simp only [hm, if_false]
    by_cases h1 : i = br
    · simp [h1]
    · by_cases h2 : i = tl <;> simp [h1, h2]

/-- Claim C3: after the relink-and-prune phase of a merge (with bridge nodes
`topleft ≠ bottom_right` and `topright ≠ bottom_left`, which holds in
`buildHull` because top and bottom nodes of one side come from that
side's slice and the slices are disjoint), the upper bridge and lower
bridge are mutual edges, the four bridge endpoints are excluded from the
pruned candidate set even when they are in `prev` (stepped over), and
every candidate other than the four bridge endpoints ends with both
neighbours absent. -/
theorem relink_prune_spec (ord : List ℕ → List ℕ)
    (hord : ∀ l : List ℕ, (ord l).Perm l) (tl tr bl br : ℕ) (prev : List ℕ)
    (s : HState) (htb : tl ≠ br) (hbt : tr ≠ bl) :
    (relinkAndPrune ord tl tr bl br prev s).cwPoint tl = some tr ∧
    (relinkAndPrune ord tl tr bl br prev s).ccwPoint tr = some tl ∧
    (relinkAndPrune ord tl tr bl br prev s).ccwPoint bl = some br ∧
    (relinkAndPrune ord tl tr bl br prev s).cwPoint br = some bl ∧
    (tl ∉ prev.filter (fun p => p ≠ tr && p ≠ tl && p ≠ br && p ≠ bl) ∧
     tr ∉ prev.filter (fun p => p ≠ tr && p ≠ tl && p ≠ br && p ≠ bl) ∧
     bl ∉ prev.filter (fun p => p ≠ tr && p ≠ tl && p ≠ br && p ≠ bl) ∧
     br ∉ prev.filter (fun p => p ≠ tr && p ≠ tl && p ≠ br && p ≠ bl)) ∧
    (∀ p ∈ prev, p ≠ tl → p ≠ tr → p ≠ bl → p ≠ br →
      (relinkAndPrune ord tl tr bl br prev s).ccwPoint p = none ∧
      (relinkAndPrune ord tl tr bl br prev s).cwPoint p = none) := by
  have hFtl : tl ∉ prev.filter (fun p => p ≠ tr && p ≠ tl && p ≠ br && p ≠ bl) := by
    simp [List.mem_filter]
  have hFtr : tr ∉ prev.filter (fun p => p ≠ tr && p ≠ tl && p ≠ br && p ≠ bl) := by
    simp [List.mem_filter]
  have hFbl : bl ∉ prev.filter (fun p => p ≠ tr && p ≠ tl && p ≠ br && p ≠ bl) := by
    simp [List.mem_filter]
  have hFbr : br ∉ prev.filter (fun p => p ≠ tr && p ≠ tl && p ≠ br && p ≠ bl) := by
    simp [List.mem_filter]
  refine ⟨?_, ?_, ?_, ?_, ⟨hFtl, hFtr, hFbl, hFbr⟩, ?_⟩
  · rw [relinkAndPrune_cw ord hord]
    simp [hFtl, htb]
  · rw [relinkAndPrune_ccw ord hord]
    simp [hFtr, hbt]
  · rw [relinkAndPrune_ccw ord hord]
    simp [hFbl]
  · rw [relinkAndPrune_cw ord hord]
    simp [hFbr]
  · intro p hp h1 h2 h3 h4
    have hpF : p ∈ prev.filter (fun p => p ≠ tr && p ≠ tl && p ≠ br && p ≠ bl) := by
      simp [List.mem_filter, hp, h1, h2, h3, h4]
    rw [relinkAndPrune_ccw ord hord, relinkAndPrune_cw ord hord, if_pos hpF,
      if_pos hpF]
    exact ⟨rfl, rfl⟩

/-- Witness for `relink_prune_spec` with bridges `0,2` (upper) and `1,3`
(lower) and candidate set `{0, 4}` (bridge endpoint `0` was stepped
over, `4` is interior). -/
theorem relink_prune_spec_witness :
    (0 : ℕ) ≠ 3 ∧ (2 : ℕ) ≠ 1 ∧
    ((relinkAndPrune id 0 2 1 3 [0, 4] s0).cwPoint 0 = some 2 ∧
     (relinkAndPrune id 0 2 1 3 [0, 4] s0).ccwPoint 2 = some 0 ∧
     (relinkAndPrune id 0 2 1 3 [0, 4] s0).ccwPoint 1 = some 3 ∧
     (relinkAndPrune id 0 2 1 3 [0, 4] s0).cwPoint 3 = some 1 ∧
     ((0 : ℕ) ∉ [0, 4].filter (fun p => p ≠ 2 && p ≠ 0 && p ≠ 3 && p ≠ 1) ∧
      (2 : ℕ) ∉ [0, 4].filter (fun p => p ≠ 2 && p ≠ 0 && p ≠ 3 && p ≠ 1) ∧
      (1 : ℕ) ∉ [0, 4].filter (fun p => p ≠ 2 && p ≠ 0 && p ≠ 3 && p ≠ 1) ∧
      (3 : ℕ) ∉ [0, 4].filter (fun p => p ≠ 2 && p ≠ 0 && p ≠ 3 && p ≠ 1)) ∧
     (∀ p ∈ [0, 4], p ≠ 0 → p ≠ 2 → p ≠ 1 → p ≠ 3 →
       (relinkAndPrune id 0 2 1 3 [0, 4] s0).ccwPoint p = none ∧
       (relinkAndPrune id 0 2 1 3 [0, 4] s0).cwPoint p = none)) :=
  ⟨by decide, by decide,
    relink_prune_spec id (fun l => List.Perm.refl l) 0 2 1 3 [0, 4] s0
      (by decide) (by decide)⟩

/-! ### C10: the final state does not depend on the set iteration order -/

/-- Unfolding of the recursive case for every slice that is not a base
case (this includes the degenerate slices of fewer than two points). -/
theorem buildHull_rec' (pts : ℕ → Pt) (ord : List ℕ → List ℕ) (fuel : ℕ)
    (points : List ℕ) (s : HState) (h2 : points.length ≠ 2)
    (h3 : points.length ≠ 3) :
    buildHull pts ord (fuel + 1) points s =
      (buildHull pts ord fuel (points.take (points.length / 2)) s).bind fun s1 =>
      (buildHull pts ord fuel (points.drop (points.length / 2)) s1).bind fun s2 =>
      seeds (points.take (points.length / 2)) (points.drop (points.length / 2))
        fun l0 r0 => mergeFrom pts ord fuel l0 r0 s2 := by
  match points, h2, h3 with
  | [], _, _ => exact rfl
  | [a], _, _ => exact rfl
  | [a, b], h2, _ => exact absurd rfl h2
  | [a, b, c], _, h3 => exact absurd rfl h3
  | a :: b :: c :: d :: es, _, _ => exact rfl

theorem relinkAndPrune_ord (ord : List ℕ → List ℕ)
    (hord : ∀ l : List ℕ, (ord l).Perm l) (tl tr bl br : ℕ) (prev : List ℕ)
    (s : HState) :
    relinkAndPrune ord tl tr bl br prev s =
      relinkAndPrune id tl tr bl br prev s := by
  unfold relinkAndPrune
  exact foldClear_perm _ _ (hord _) _

theorem mergeFrom_ord (pts : ℕ → Pt) (ord : List ℕ → List ℕ)
    (hord : ∀ l : List ℕ, (ord l).Perm l) (fuel l0 r0 : ℕ) (s : HState) :
    mergeFrom pts ord fuel l0 r0 s = mergeFrom pts id fuel l0 r0 s := by
  unfold mergeFrom
  simp only [relinkAndPrune_ord ord hord]

/-- Claim C10: `buildHull` is deterministic.  The only nondeterminism in the
source is the iteration order of the Python set `previous_points` in the
pruning loop; running the algorithm with any iteration-order oracle
(`ord`, an arbitrary permutation choice) produces exactly the same final
neighbour state as the canonical order, because pruning sets both
neighbour fields of every pruned point to `None` and such writes
commute. -/
theorem buildHull_deterministic (pts : ℕ → Pt) (ord : List ℕ → List ℕ)
    (hord : ∀ l : List ℕ, (ord l).Perm l) (fuel : ℕ) (points : List ℕ)
    (s : HState) :
    buildHull pts ord fuel points s = buildHull pts id fuel points s := by
  induction fuel generalizing points s with
  | zero => rfl
  | succ fuel IH =>
    match points with
    | [p0, p1] => exact rfl
    | [p0, p1, p2] => exact rfl
    | [] =>
      rw [buildHull_rec' pts ord fuel [] s (by simp) (by simp),
        buildHull_rec' pts id fuel [] s (by simp) (by simp)]
      simp only [IH, mergeFrom_ord pts ord hord]
    | [a] =>
      rw [buildHull_rec' pts ord fuel [a] s (by simp) (by simp),
        buildHull_rec' pts id fuel [a] s (by simp) (by simp)]
      simp only [IH, mergeFrom_ord pts ord hord]
    | a :: b :: c :: d :: es =>
      rw [buildHull_rec' pts ord fuel (a :: b :: c :: d :: es) s (by simp)
          (by simp [Nat.succ_ne_zero]),
        buildHull_rec' pts id fuel (a :: b :: c :: d :: es) s (by simp)
          (by simp [Nat.succ_ne_zero])]
      simp only [IH, mergeFrom_ord pts ord hord]

/-- Witness for `buildHull_deterministic`: iterating the pruned set in
reversed order gives the same run as the canonical order on the
four-point input. -/
theorem buildHull_deterministic_witness :
    (∀ l : List ℕ, l.reverse.Perm l) ∧
    buildHull pts4 List.reverse 10 [0, 1, 2, 3] s0 =
      buildHull pts4 id 10 [0, 1, 2, 3] s0 :=
  ⟨fun l => l.reverse_perm,
    buildHull_deterministic pts4 List.reverse (fun l => l.reverse_perm) 10
      [0, 1, 2, 3] s0⟩

/-! ### C1, C5, C8: concrete runs exhibiting the code's behaviour -/

@[simp] theorem exc_bind_ok {α β : Type} (a : α) (f : α → Except Err β) :
    (Except.ok a).bind f = f a := rfl

@[simp] theorem exc_bind_error {α β : Type} (e : Err) (f : α → Except Err β) :
    (Except.error e : Except Err α).bind f = Except.error e := rfl

/-- The five points of spec scenario C, sorted ascending by `(x, y)`:
`(0,0),(0,1),(0.5,0.5),(1,0),(1,1)` at handles `0..4`.  Handle `2` is
the interior point, handles `0,1,3,4` the square corners. -/
def pts5 : ℕ → Pt := fun i =>
  if i = 0 then ⟨0, 0⟩ else if i = 1 then ⟨0, 1⟩
  else if i = 2 then ⟨1/2, 1/2⟩ else if i = 3 then ⟨1, 0⟩ else ⟨1, 1⟩

/-- Six sorted points `(0,0),(1,0),(2,1),(3,0),(4,0),(5,0)` whose left
half `(0,0),(1,0),(2,1)` is a `LEFT_TURN` triple, so its base case
leaves the merge seed `(2,1)` with absent neighbours. -/
def pts6 : ℕ → Pt := fun i =>
  if i = 0 then ⟨0, 0⟩ else if i = 1 then ⟨1, 0⟩ else if i = 2 then ⟨2, 1⟩
  else if i = 3 then ⟨3, 0⟩ else if i = 4 then ⟨4, 0⟩ else ⟨5, 0⟩

set_option maxHeartbeats 1600000 in
/-- Claim C1 (code bug, refuting run): on the sorted 4-point collinear input
`(0,0),(0,1),(0,2),(0,3)` `buildHull` completes, all four points have
present neighbour relations, yet they do not form one circular chain:
point `0` has `cwPoint = 1` while point `1` has `ccwPoint = 2 ≠ 0`, so
`p.cwPoint.ccwPoint == p` fails at `p = 0`, and following `cwPoint` from
`0` gives `0, 1, 2, 1, 2, …`, never returning to `0`.  (The two 2-point
sub-hulls merge with both bridges equal to `(1, 2)`, leaving the stale
links of `0` and `3` dangling.) -/
theorem buildHull_collinear_breaks_chain :
    (buildHull pts4 id 3 [0, 1, 2, 3] s0).bind (fun t =>
      Except.ok [(t.ccwPoint 0, t.cwPoint 0), (t.ccwPoint 1, t.cwPoint 1),
        (t.ccwPoint 2, t.cwPoint 2), (t.ccwPoint 3, t.cwPoint 3)]) =
    Except.ok [(some 1, some 1), (some 2, some 2), (some 1, some 1),
      (some 2, some 2)] := by
  norm_num [buildHull, mergeFrom, seeds, walkUp, walkDown, relinkAndPrune,
    turn, addPrev, setCcw, setCw, clearPt, s0, pts4, Function.update_apply]
  simp [Function.update_apply]

set_option maxHeartbeats 1600000 in
/-- Claim C5 (code bug, refuting run): on the sorted input
`(0,0),(0,1),(0.5,0.5),(1,0),(1,1)` of spec scenario C, `buildHull`
completes but the interior point `(0.5,0.5)` (handle `2`) ends with
present neighbours `ccwPoint = (0,1)` and `cwPoint = (1,0)`, while the
square corner `(1,1)` (handle `4`) ends with both neighbours absent:
the 3-point right half `(0.5,0.5),(1,0),(1,1)` is a `LEFT_TURN` triple,
so its base case links only `(0.5,0.5) ↔ (1,0)` and drops `(1,1)`, and
the merge then keeps the interior point on the chain. -/
theorem buildHull_square_interior_bug :
    (buildHull pts5 id 4 [0, 1, 2, 3, 4] s0).bind (fun t =>
      Except.ok [(t.ccwPoint 0, t.cwPoint 0), (t.ccwPoint 1, t.cwPoint 1),
        (t.ccwPoint 2, t.cwPoint 2), (t.ccwPoint 3, t.cwPoint 3),
        (t.ccwPoint 4, t.cwPoint 4)]) =
    Except.ok [(some 3, some 1), (some 0, some 2), (some 1, some 3),
      (some 2, some 0), (none, none)] := by
  norm_num [buildHull, mergeFrom, seeds, walkUp, walkDown, relinkAndPrune,
    turn, addPrev, setCcw, setCw, clearPt, s0, pts5, Function.update_apply]
  simp [Function.update_apply]

set_option maxHeartbeats 1600000 in
/-- Claim C8 (code bug, refuting runs): (1) on the sorted 6-point input
`(0,0),(1,0),(2,1),(3,0),(4,0),(5,0)` construction fails with a null
dereference (Python `AttributeError`): the left half is a `LEFT_TURN`
triple whose base case leaves the seed `left[-1] = (2,1)` unlinked, and
the upper tangent search immediately reads `left_node.ccwPoint = None`;
(2) inputs of fewer than two points are not rejected: a 0- or 1-point
input recurses on an empty slice forever (out of fuel for every fuel
value), rather than failing before recursion begins. -/
theorem buildHull_error_behavior :
    buildHull pts6 id 2 [0, 1, 2, 3, 4, 5] s0 =
      Except.error Err.nullPointer ∧
    (∀ (fuel : ℕ) (s : HState),
      buildHull pts6 id fuel [] s = Except.error Err.outOfFuel) ∧
    (∀ (fuel : ℕ) (s : HState),
      buildHull pts6 id fuel [0] s = Except.error Err.outOfFuel) := by
  have hnil : ∀ (fuel : ℕ) (s : HState),
      buildHull pts6 id fuel [] s = Except.error Err.outOfFuel := by
    intro fuel
    induction fuel with
    | zero => intro s; rfl
    | succ fuel ih =>
      intro s
      rw [buildHull_rec' pts6 id fuel [] s (by simp) (by simp)]
      simp [ih]
  refine ⟨?_, hnil, ?_⟩
  · norm_num [buildHull, mergeFrom, seeds, walkUp, walkDown, relinkAndPrune,
      turn, addPrev, setCcw, setCw, clearPt, s0, pts6, Function.update_apply]
    simp [Function.update_apply]
  · intro fuel s
    cases fuel with
    | zero => rfl
    | succ fuel =>
      rw [buildHull_rec' pts6 id fuel [0] s (by simp) (by simp)]
      simp [hnil]

/-! ### C9: re-running construction on the same sorted input -/

/-- All points of a slice have both neighbour relations absent (the
state in which freshly loaded points reach the first `buildHull` call). -/
def Clean (slice : List ℕ) (s : HState) : Prop :=
  ∀ i ∈ slice, s.ccwPoint i = none ∧ s.cwPoint i = none

/-- Overwrite `s` with the values of `t` at the handles in `W`. -/
def patch (W : List ℕ) (t s : HState) : HState :=
  { ccwPoint := fun i => if i ∈ W then t.ccwPoint i else s.ccwPoint i,
    cwPoint := fun i => if i ∈ W then t.cwPoint i else s.cwPoint i }

theorem patch_self (W : List ℕ) (t : HState) : patch W t t = t := by
  refine HState.ext_of _ _ ?_ ?_ <;> funext i <;> simp [patch]

theorem patch_patch (WL WR : List ℕ) (t1 t2 s : HState)
    (h : ∀ i, i ∉ WR → t2.ccwPoint i = t1.ccwPoint i ∧
      t2.cwPoint i = t1.cwPoint i) :
    patch WR t2 (patch WL t1 s) = patch (WL ++ WR) t2 s := by
  refine HState.ext_of _ _ ?_ ?_
  · funext i
    by_cases hR : i ∈ WR
    · simp [patch, List.mem_append, hR]
    · by_cases hL : i ∈ WL
      · simp [patch, List.mem_append, hR, hL, (h i hR).1]
      · simp [patch, List.mem_append, hR, hL]
  · funext i
    by_cases hR : i ∈ WR
    · simp [patch, List.mem_append, hR]
    · by_cases hL : i ∈ WL
      · simp [patch, List.mem_append, hR, hL, (h i hR).2]
      · simp [patch, List.mem_append, hR, hL]

/-- Nodes reached by the walk-up loop stay inside a pointer-closed
domain, the returned pair has the pointers its final test read, and
every recorded node either was already recorded or has a present
pointer. -/
theorem walkUp_closure (pts : ℕ → Pt) (s : HState) (D : List ℕ)
    (hDcl : ∀ i ∈ D, ∀ j, (s.ccwPoint i = some j → j ∈ D) ∧
      (s.cwPoint i = some j → j ∈ D)) :
    ∀ (fuel l r : ℕ) (prev : List ℕ) (res : ℕ × ℕ × List ℕ), l ∈ D → r ∈ D →
    walkUp pts s fuel l r prev = Except.ok res →
    res.1 ∈ D ∧ res.2.1 ∈ D ∧
    (∀ p ∈ res.2.2, p ∈ prev ∨ p ∈ D) ∧
    s.ccwPoint res.1 ≠ none ∧ s.cwPoint res.2.1 ≠ none ∧
    (∀ p ∈ res.2.2, p ∈ prev ∨ s.ccwPoint p ≠ none ∨ s.cwPoint p ≠ none) := by
  intro fuel
  induction fuel with
  | zero => intro l r prev res _ _ h; exact absurd h (by simp [walkUp])
  | succ fuel ih =>
    intro l r prev res hl hr h
    cases hcl : s.ccwPoint l with
    | none => simp [walkUp_succ, hcl] at h
    | some a =>
      simp only [walkUp_succ, hcl] at h
      by_cases ht : turn (pts a) (pts l) (pts r) = Turn.LEFT_TURN
      · rw [if_pos ht] at h
        have ha : a ∈ D := ((hDcl l hl a).1) hcl
        obtain ⟨c1, c2, c3, c4, c5, c6⟩ := ih a r (addPrev l prev) res ha hr h
        refine ⟨c1, c2, fun p hp => ?_, c4, c5, fun p hp => ?_⟩
        · rcases c3 p hp with hp' | hp'
          · rcases (mem_addPrev p l prev).mp hp' with rfl | hp''
            · exact Or.inr hl
            · exact Or.inl hp''
          · exact Or.inr hp'
        · rcases c6 p hp with hp' | hp'
          · rcases (mem_addPrev p l prev).mp hp' with rfl | hp''
            · exact Or.inr (Or.inl (by rw [hcl]; exact fun hcon => by cases hcon))
            · exact Or.inl hp''
          · exact Or.inr hp'
      · rw [if_neg ht] at h
        cases hcr : s.cwPoint r with
        | none => simp [hcr] at h
        | some b =>
          simp only [hcr] at h
          by_cases ht2 : turn (pts l) (pts r) (pts b) = Turn.LEFT_TURN
          · rw [if_pos ht2] at h
            have hb : b ∈ D := ((hDcl r hr b).2) hcr
            obtain ⟨c1, c2, c3, c4, c5, c6⟩ := ih l b (addPrev r prev) res hl hb h
            refine ⟨c1, c2, fun p hp => ?_, c4, c5, fun p hp => ?_⟩
            · rcases c3 p hp with hp' | hp'
              · rcases (mem_addPrev p r prev).mp hp' with rfl | hp''
                · exact Or.inr hr
                · exact Or.inl hp''
              · exact Or.inr hp'
            · rcases c6 p hp with hp' | hp'
              · rcases (mem_addPrev p r prev).mp hp' with rfl | hp''
                · exact Or.inr (Or.inr (by rw [hcr]; exact fun hcon => by cases hcon))
                · exact Or.inl hp''
              · exact Or.inr hp'
          · rw [if_neg ht2] at h
            cases h
            refine ⟨hl, hr, fun p hp => Or.inl hp, ?_, ?_, fun p hp => Or.inl hp⟩
            · rw [hcl]; exact fun hcon => by cases hcon
            · rw [hcr]; exact fun hcon => by cases hcon

/-- Mirror of `walkUp_closure` for the walk-down loop. -/
theorem walkDown_closure (pts : ℕ → Pt) (s : HState) (D : List ℕ)
    (hDcl : ∀ i ∈ D, ∀ j, (s.ccwPoint i = some j → j ∈ D) ∧
      (s.cwPoint i = some j → j ∈ D)) :
    ∀ (fuel l r : ℕ) (prev : List ℕ) (res : ℕ × ℕ × List ℕ), l ∈ D → r ∈ D →
    walkDown pts s fuel l r prev = Except.ok res →
    res.1 ∈ D ∧ res.2.1 ∈ D ∧
    (∀ p ∈ res.2.2, p ∈ prev ∨ p ∈ D) ∧
    s.cwPoint res.1 ≠ none ∧ s.ccwPoint res.2.1 ≠ none ∧
    (∀ p ∈ res.2.2, p ∈ prev ∨ s.ccwPoint p ≠ none ∨ s.cwPoint p ≠ none) := by
  intro fuel
  induction fuel with
  | zero => intro l r prev res _ _ h; exact absurd h (by simp [walkDown])
  | succ fuel ih =>
    intro l r prev res hl hr h
    cases hcl : s.cwPoint l with
    | none => simp [walkDown_succ, hcl] at h
    | some a =>
      simp only [walkDown_succ, hcl] at h
      by_cases ht : turn (pts a) (pts l) (pts r) = Turn.RIGHT_TURN
      · rw [if_pos ht] at h
        have ha : a ∈ D := ((hDcl l hl a).2) hcl
        obtain ⟨c1, c2, c3, c4, c5, c6⟩ := ih a r (addPrev l prev) res ha hr h
        refine ⟨c1, c2, fun p hp => ?_, c4, c5, fun p hp => ?_⟩
        · rcases c3 p hp with hp' | hp'
          · rcases (mem_addPrev p l prev).mp hp' with rfl | hp''
            · exact Or.inr hl
            · exact Or.inl hp''
          · exact Or.inr hp'
        · rcases c6 p hp with hp' | hp'
          · rcases (mem_addPrev p l prev).mp hp' with rfl | hp''
            · exact Or.inr (Or.inr (by rw [hcl]; exact fun hcon => by cases hcon))
            · exact Or.inl hp''
          · exact Or.inr hp'
      · rw [if_neg ht] at h
        cases hcr : s.ccwPoint r with
        | none => simp [hcr] at h
        | some b =>
          simp only [hcr] at h
          by_cases ht2 : turn (pts l) (pts r) (pts b) = Turn.RIGHT_TURN
          · rw [if_pos ht2] at h
            have hb : b ∈ D := ((hDcl r hr b).1) hcr
            obtain ⟨c1, c2, c3, c4, c5, c6⟩ := ih l b (addPrev r prev) res hl hb h
            refine ⟨c1, c2, fun p hp => ?_, c4, c5, fun p hp => ?_⟩
            · rcases c3 p hp with hp' | hp'
              · rcases (mem_addPrev p r prev).mp hp' with rfl | hp''
                · exact Or.inr hr
                · exact Or.inl hp''
              · exact Or.inr hp'
            · rcases c6 p hp with hp' | hp'
              · rcases (mem_addPrev p r prev).mp hp' with rfl | hp''
                · exact Or.inr (Or.inl (by rw [hcr]; exact fun hcon => by cases hcon))
                · exact Or.inl hp''
              · exact Or.inr hp'
          · rw [if_neg ht2] at h
            cases h
            refine ⟨hl, hr, fun p hp => Or.inl hp, ?_, ?_, fun p hp => Or.inl hp⟩
            · rw [hcl]; exact fun hcon => by cases hcon
            · rw [hcr]; exact fun hcon => by cases hcon

/-- A second state that agrees with `s` on every present pointer inside
a pointer-closed domain makes the walk-up loop take exactly the same
path. -/
theorem walkUp_sim (pts : ℕ → Pt) (s v : HState) (D : List ℕ)
    (hag : ∀ i ∈ D, ∀ j, (s.ccwPoint i = some j → j ∈ D ∧
      v.ccwPoint i = some j) ∧ (s.cwPoint i = some j → j ∈ D ∧
      v.cwPoint i = some j)) :
    ∀ (fuel l r : ℕ) (prev : List ℕ) (res : ℕ × ℕ × List ℕ), l ∈ D → r ∈ D →
    walkUp pts s fuel l r prev = Except.ok res →
    walkUp pts v fuel l r prev = Except.ok res := by
  intro fuel
  induction fuel with
  | zero => intro l r prev res _ _ h; exact absurd h (by simp [walkUp])
  | succ fuel ih =>
    intro l r prev res hl hr h
    cases hcl : s.ccwPoint l with
    | none => simp [walkUp_succ, hcl] at h
    | some a =>
      simp only [walkUp_succ, hcl] at h
      obtain ⟨haD, hav⟩ := ((hag l hl a).1) hcl
      rw [walkUp_succ]
      simp only [hav]
      by_cases ht : turn (pts a) (pts l) (pts r) = Turn.LEFT_TURN
      · rw [if_pos ht] at h ⊢
        exact ih a r (addPrev l prev) res haD hr h
      · rw [if_neg ht] at h ⊢
        cases hcr : s.cwPoint r with
        | none => simp [hcr] at h
        | some b =>
          simp only [hcr] at h
          obtain ⟨hbD, hbv⟩ := ((hag r hr b).2) hcr
          simp only [hbv]
          by_cases ht2 : turn (pts l) (pts r) (pts b) = Turn.LEFT_TURN
          · rw [if_pos ht2] at h ⊢
            exact ih l b (addPrev r prev) res hl hbD h
          · rw [if_neg ht2] at h ⊢
            exact h

/-- Mirror of `walkUp_sim` for the walk-down loop. -/
theorem walkDown_sim (pts : ℕ → Pt) (s v : HState) (D : List ℕ)
    (hag : ∀ i ∈ D, ∀ j, (s.ccwPoint i = some j → j ∈ D ∧
      v.ccwPoint i = some j) ∧ (s.cwPoint i = some j → j ∈ D ∧
      v.cwPoint i = some j)) :
    ∀ (fuel l r : ℕ) (prev : List ℕ) (res : ℕ × ℕ × List ℕ), l ∈ D → r ∈ D →
    walkDown pts s fuel l r prev = Except.ok res →
    walkDown pts v fuel l r prev = Except.ok res := by
  intro fuel
  induction fuel with
  | zero => intro l r prev res _ _ h; exact absurd h (by simp [walkDown])
  | succ fuel ih =>
    intro l r prev res hl hr h
    cases hcl : s.cwPoint l with
    | none => simp [walkDown_succ, hcl] at h
    | some a =>
      simp only [walkDown_succ, hcl] at h
      obtain ⟨haD, hav⟩ := ((hag l hl a).2) hcl
      rw [walkDown_succ]
      simp only [hav]
      by_cases ht : turn (pts a) (pts l) (pts r) = Turn.RIGHT_TURN
      · rw [if_pos ht] at h ⊢
        exact ih a r (addPrev l prev) res haD hr h
      · rw [if_neg ht] at h ⊢
        cases hcr : s.ccwPoint r with
        | none => simp [hcr] at h
        | some b =>
          simp only [hcr] at h
          obtain ⟨hbD, hbv⟩ := ((hag r hr b).1) hcr
          simp only [hbv]
          by_cases ht2 : turn (pts l) (pts r) (pts b) = Turn.RIGHT_TURN
          · rw [if_pos ht2] at h ⊢
            exact ih l b (addPrev r prev) res hl hbD h
          · rw [if_neg ht2] at h ⊢
            exact h

/-- The conclusion of the replay lemma for one slice: a write set `W`
inside the slice such that the run only changed handles in `W`, wrote
only pointers into the slice, and from any start state succeeds and
produces exactly the `W`-patch of the first run's result over that
state. -/
def ReplayOut (pts : ℕ → Pt) (ord : List ℕ → List ℕ) (fuel : ℕ)
    (slice : List ℕ) (s₁ t₁ : HState) : Prop :=
  ∃ W : List ℕ,
    (∀ i ∈ W, i ∈ slice) ∧
    (∀ i, i ∉ W → t₁.ccwPoint i = s₁.ccwPoint i ∧
      t₁.cwPoint i = s₁.cwPoint i) ∧
    (∀ i ∈ W, (∀ j, t₁.ccwPoint i = some j → j ∈ slice) ∧
      (∀ j, t₁.cwPoint i = some j → j ∈ slice)) ∧
    (∀ s₂, buildHull pts ord fuel slice s₂ = Except.ok (patch W t₁ s₂))

theorem base2_ccw (s : HState) (p0 p1 i : ℕ) :
    (setCw (setCcw (setCw (setCcw s p0 (some p1)) p0 (some p1)) p1 (some p0))
      p1 (some p0)).ccwPoint i =
    if i = p1 then some p0 else if i = p0 then some p1 else s.ccwPoint i := by
  simp [ccw_setCcw]

theorem base2_cw (s : HState) (p0 p1 i : ℕ) :
    (setCw (setCcw (setCw (setCcw s p0 (some p1)) p0 (some p1)) p1 (some p0))
      p1 (some p0)).cwPoint i =
    if i = p1 then some p0 else if i = p0 then some p1 else s.cwPoint i := by
  simp [cw_setCw]

theorem base3_ccw (s : HState) (p0 p1 p2 i : ℕ) :
    (setCw (setCcw (setCw (setCcw (setCw (setCcw s p0 (some p1)) p0 (some p2))
      p1 (some p2)) p1 (some p0)) p2 (some p0)) p2 (some p1)).ccwPoint i =
    if i = p2 then some p0 else if i = p1 then some p2
    else if i = p0 then some p1 else s.ccwPoint i := by
  simp [ccw_setCcw]

theorem base3_cw (s : HState) (p0 p1 p2 i : ℕ) :
    (setCw (setCcw (setCw (setCcw (setCw (setCcw s p0 (some p1)) p0 (some p2))
      p1 (some p2)) p1 (some p0)) p2 (some p0)) p2 (some p1)).cwPoint i =
    if i = p2 then some p1 else if i = p1 then some p0
    else if i = p0 then some p2 else s.cwPoint i := by
  simp [cw_setCw]

theorem replay_two (pts : ℕ → Pt) (ord : List ℕ → List ℕ) (fuel : ℕ)
    (p0 p1 : ℕ) (s₁ t₁ : HState)
    (h : buildHull pts ord (fuel + 1) [p0, p1] s₁ = Except.ok t₁) :
    ReplayOut pts ord (fuel + 1) [p0, p1] s₁ t₁ := by
  rw [buildHull_two] at h
  injection h with h
  subst h
  refine ⟨[p0, p1], by simp, ?_, ?_, ?_⟩
  · intro i hi
    have h0 : i ≠ p0 := fun e => hi (by simp [e])
    have h1 : i ≠ p1 := fun e => hi (by simp [e])
    rw [base2_ccw, base2_cw]
    simp [h0, h1]
  · intro i _
    constructor
    · intro j hj
      rw [base2_ccw] at hj
      by_cases e1 : i = p1
      · rw [if_pos e1] at hj
        injection hj with hj
        simp [hj]
      · rw [if_neg e1] at hj
        by_cases e0 : i = p0
        · rw [if_pos e0] at hj
          injection hj with hj
          simp [hj]
        · rw [if_neg e0] at hj
          by_cases e1' : i = p1
          · exact absurd e1' e1
          · by_cases e0' : i = p0
            · exact absurd e0' e0
            · exfalso
              rename_i hi
              simp [e0, e1] at hi
    · intro j hj
      rw [base2_cw] at hj
      by_cases e1 : i = p1
      · rw [if_pos e1] at hj
        injection hj with hj
        simp [hj]
      · rw [if_neg e1] at hj
        by_cases e0 : i = p0
        · rw [if_pos e0] at hj
          injection hj with hj
          simp [hj]
        · exfalso
          rename_i hi
          simp [e0, e1] at hi
  · intro s₂
    rw [buildHull_two]
    congr 1
    refine HState.ext_of _ _ ?_ ?_
    · funext i
      rw [base2_ccw]
      show _ = (patch [p0, p1] _ s₂).ccwPoint i
      simp only [patch]
      rw [base2_ccw]
      by_cases e1 : i = p1
      · simp [e1]
      · by_cases e0 : i = p0
        · simp [e0, e1]
        · simp [e0, e1]
    · funext i
      rw [base2_cw]
      show _ = (patch [p0, p1] _ s₂).cwPoint i
      simp only [patch]
      rw [base2_cw]
      by_cases e1 : i = p1
      · simp [e1]
      · by_cases e0 : i = p0
        · simp [e0, e1]
        · simp [e0, e1]

theorem replay_three (pts : ℕ → Pt) (ord : List ℕ → List ℕ) (fuel : ℕ)
    (p0 p1 p2 : ℕ) (s₁ t₁ : HState)
    (h : buildHull pts ord (fuel + 1) [p0, p1, p2] s₁ = Except.ok t₁) :
    ReplayOut pts ord (fuel + 1) [p0, p1, p2] s₁ t₁ := by
  rw [buildHull_three] at h
  by_cases ht : turn (pts p0) (pts p1) (pts p2) = Turn.LEFT_TURN
  · rw [if_pos ht] at h
    injection h with h
    subst h
    refine ⟨[p0, p1], by simp, ?_, ?_, ?_⟩
    · intro i hi
      have h0 : i ≠ p0 := fun e => hi (by simp [e])
      have h1 : i ≠ p1 := fun e => hi (by simp [e])
      rw [base2_ccw, base2_cw]
      simp [h0, h1]
    · intro i _
      constructor
      · intro j hj
        rw [base2_ccw] at hj
        by_cases e1 : i = p1
        · rw [if_pos e1] at hj
          injection hj with hj
          simp [hj]
        · rw [if_neg e1] at hj
          by_cases e0 : i = p0
          · rw [if_pos e0] at hj
            injection hj with hj
            simp [hj]
          · exfalso
            rename_i hi
            simp [e0, e1] at hi
      · intro j hj
        rw [base2_cw] at hj
        by_cases e1 : i = p1
        · rw [if_pos e1] at hj
          injection hj with hj
          simp [hj]
        · rw [if_neg e1] at hj
          by_cases e0 : i = p0
          · rw [if_pos e0] at hj
            injection hj with hj
            simp [hj]
          · exfalso
            rename_i hi
            simp [e0, e1] at hi
    · intro s₂
      rw [buildHull_three, if_pos ht]
      congr 1
      refine HState.ext_of _ _ ?_ ?_
      · funext i
        rw [base2_ccw]
        show _ = (patch [p0, p1] _ s₂).ccwPoint i
        simp only [patch]
        rw [base2_ccw]
        by_cases e1 : i = p1
        · simp [e1]
        · by_cases e0 : i = p0
          · simp [e0, e1]
          · simp [e0, e1]
      · funext i
        rw [base2_cw]
        show _ = (patch [p0, p1] _ s₂).cwPoint i
        simp only [patch]
        rw [base2_cw]
        by_cases e1 : i = p1
        · simp [e1]
        · by_cases e0 : i = p0
          · simp [e0, e1]
          · simp [e0, e1]
  · rw [if_neg ht] at h
    injection h with h
    subst h
    refine ⟨[p0, p1, p2], by simp, ?_, ?_, ?_⟩
    · intro i hi
      have h0 : i ≠ p0 := fun e => hi (by simp [e])
      have h1 : i ≠ p1 := fun e => hi (by simp [e])
      have h2 : i ≠ p2 := fun e => hi (by simp [e])
      rw [base3_ccw, base3_cw]
      simp [h0, h1, h2]
    · intro i _
      constructor
      · intro j hj
        rw [base3_ccw] at hj
        by_cases e2 : i = p2
        · rw [if_pos e2] at hj
          injection hj with hj
          simp [hj]
        · rw [if_neg e2] at hj
          by_cases e1 : i = p1
          · rw [if_pos e1] at hj
            injection hj with hj
            simp [hj]
          · rw [if_neg e1] at hj
            by_cases e0 : i = p0
            · rw [if_pos e0] at hj
              injection hj with hj
              simp [hj]
            · exfalso
              rename_i hi
              simp [e0, e1, e2] at hi
      · intro j hj
        rw [base3_cw] at hj
        by_cases e2 : i = p2
        · rw [if_pos e2] at hj
          injection hj with hj
          simp [hj]
        · rw [if_neg e2] at hj
          by_cases e1 : i = p1
          · rw [if_pos e1] at hj
            injection hj with hj
            simp [hj]
          · rw [if_neg e1] at hj
            by_cases e0 : i = p0
            · rw [if_pos e0] at hj
              injection hj with hj
              simp [hj]
            · exfalso
              rename_i hi
              simp [e0, e1, e2] at hi
    · intro s₂
      rw [buildHull_three, if_neg ht]
      congr 1
      refine HState.ext_of _ _ ?_ ?_
      · funext i
        rw [base3_ccw]
        show _ = (patch [p0, p1, p2] _ s₂).ccwPoint i
        simp only [patch]
        rw [base3_ccw]
        by_cases e2 : i = p2
        · simp [e2]
        · by_cases e1 : i = p1
          · simp [e1, e2]
          · by_cases e0 : i = p0
            · simp [e0, e1, e2]
            · simp [e0, e1, e2]
      · funext i
        rw [base3_cw]
        show _ = (patch [p0, p1, p2] _ s₂).cwPoint i
        simp only [patch]
        rw [base3_cw]
        by_cases e2 : i = p2
        · simp [e2]
        · by_cases e1 : i = p1
          · simp [e1, e2]
          · by_cases e0 : i = p0
            · simp [e0, e1, e2]
            · simp [e0, e1, e2]

/-- The recursive case of the replay lemma: a successful run on a
duplicate-free slice whose points start with absent neighbours writes
only inside the slice, and replaying from any state retraces the same
recursions, walks, bridges and pruning.  The key invariant is that a
completed first run read only pointers it had itself written (a present
pointer at a clean point must have been written), so the replay reads
the same values. -/
theorem replay_rec_aux (pts : ℕ → Pt) (ord : List ℕ → List ℕ)
    (hord : ∀ l : List ℕ, (ord l).Perm l) (fuel : ℕ)
    (IH : ∀ (slice : List ℕ) (s₁ t₁ : HState), slice.Nodup →
      Clean slice s₁ → buildHull pts ord fuel slice s₁ = Except.ok t₁ →
      ReplayOut pts ord fuel slice s₁ t₁)
    (points : List ℕ) (h2 : points.length ≠ 2) (h3 : points.length ≠ 3)
    (s₁ t₁ : HState) (hnd : points.Nodup) (hc : Clean points s₁)
    (h : buildHull pts ord (fuel + 1) points s₁ = Except.ok t₁) :
    ReplayOut pts ord (fuel + 1) points s₁ t₁ := by
  rw [buildHull_rec' pts ord fuel points s₁ h2 h3] at h
  have hsubL : ∀ i ∈ points.take (points.length / 2), i ∈ points :=
    fun i hi => List.take_subset _ _ hi
  have hsubR : ∀ i ∈ points.drop (points.length / 2), i ∈ points :=
    fun i hi => List.drop_subset _ _ hi
  have hndL : (points.take (points.length / 2)).Nodup :=
    hnd.sublist (List.take_sublist _ _)
  have hndR : (points.drop (points.length / 2)).Nodup :=
    hnd.sublist (List.drop_sublist _ _)
  have hdisj : ∀ i, i ∈ points.take (points.length / 2) →
      i ∈ points.drop (points.length / 2) → False :=
    fun i hiL hiR => (List.disjoint_take_drop hnd le_rfl) hiL hiR
  cases hL : buildHull pts ord fuel (points.take (points.length / 2)) s₁ with
  | error e => rw [hL] at h; simp at h
  | ok s1' =>
  rw [hL] at h
  simp only [exc_bind_ok] at h
  cases hR : buildHull pts ord fuel (points.drop (points.length / 2)) s1' with
  | error e => rw [hR] at h; simp at h
  | ok s2' =>
  rw [hR] at h
  simp only [exc_bind_ok] at h
  cases hg : (points.take (points.length / 2)).getLast? with
  | none => simp [seeds, hg] at h
  | some l0 =>
  cases hh : (points.drop (points.length / 2)).head? with
  | none => simp [seeds, hg, hh] at h
  | some r0 =>
  rw [seeds_some _ _ l0 r0 _ hg hh] at h
  have hcleanL : Clean (points.take (points.length / 2)) s₁ :=
    fun i hi => hc i (hsubL i hi)
  obtain ⟨WL, hWLsub, hWLout, hWLrange, hWLreplay⟩ :=
    IH (points.take (points.length / 2)) s₁ s1' hndL hcleanL hL
  have hcleanR : Clean (points.drop (points.length / 2)) s1' := by
    intro i hi
    have hiWL : i ∉ WL := fun hiWL => hdisj i (hWLsub i hiWL) hi
    obtain ⟨e1, e2⟩ := hWLout i hiWL
    obtain ⟨f1, f2⟩ := hc i (hsubR i hi)
    exact ⟨e1.trans f1, e2.trans f2⟩
  obtain ⟨WR, hWRsub, hWRout, hWRrange, hWRreplay⟩ :=
    IH (points.drop (points.length / 2)) s1' s2' hndR hcleanR hR
  have hMsub : ∀ i ∈ WL ++ WR, i ∈ points := by
    intro i hi
    rcases List.mem_append.mp hi with hi' | hi'
    · exact hsubL i (hWLsub i hi')
    · exact hsubR i (hWRsub i hi')
  have hMout : ∀ i, i ∉ WL ++ WR →
      s2'.ccwPoint i = s₁.ccwPoint i ∧ s2'.cwPoint i = s₁.cwPoint i := by
    intro i hi
    have hiL : i ∉ WL := fun hcon => hi (List.mem_append.mpr (Or.inl hcon))
    have hiR : i ∉ WR := fun hcon => hi (List.mem_append.mpr (Or.inr hcon))
    obtain ⟨e1, e2⟩ := hWRout i hiR
    obtain ⟨f1, f2⟩ := hWLout i hiL
    exact ⟨e1.trans f1, e2.trans f2⟩
  have hMclean : ∀ i ∈ points, i ∉ WL ++ WR →
      s2'.ccwPoint i = none ∧ s2'.cwPoint i = none := by
    intro i hi hiM
    obtain ⟨e1, e2⟩ := hMout i hiM
    obtain ⟨f1, f2⟩ := hc i hi
    exact ⟨e1.trans f1, e2.trans f2⟩
  have hMrange : ∀ i ∈ WL ++ WR,
      (∀ j, s2'.ccwPoint i = some j → j ∈ points) ∧
      (∀ j, s2'.cwPoint i = some j → j ∈ points) := by
    intro i hi
    by_cases hiR : i ∈ WR
    · exact ⟨fun j hj => hsubR j ((hWRrange i hiR).1 j hj),
        fun j hj => hsubR j ((hWRrange i hiR).2 j hj)⟩
    · have hiL : i ∈ WL := by
        rcases List.mem_append.mp hi with hi' | hi'
        · exact hi'
        · exact absurd hi' hiR
      obtain ⟨e1, e2⟩ := hWRout i hiR
      exact ⟨fun j hj => hsubL j ((hWLrange i hiL).1 j (e1 ▸ hj)),
        fun j hj => hsubL j ((hWLrange i hiL).2 j (e2 ▸ hj))⟩
  have hDcl : ∀ i ∈ points, ∀ j,
      (s2'.ccwPoint i = some j → j ∈ points) ∧
      (s2'.cwPoint i = some j → j ∈ points) := by
    intro i hi j
    by_cases hiM : i ∈ WL ++ WR
    · exact ⟨(hMrange i hiM).1 j, (hMrange i hiM).2 j⟩
    · obtain ⟨e1, e2⟩ := hMclean i hi hiM
      constructor
      · intro hcon
        rw [e1] at hcon
        cases hcon
      · intro hcon
        rw [e2] at hcon
        cases hcon
  have hMof : ∀ i ∈ points,
      (s2'.ccwPoint i ≠ none ∨ s2'.cwPoint i ≠ none) → i ∈ WL ++ WR := by
    intro i hi hpres
    by_contra hiM
    obtain ⟨e1, e2⟩ := hMclean i hi hiM
    rcases hpres with hp | hp
    · exact hp e1
    · exact hp e2
  have hl0 : l0 ∈ points := hsubL l0 (List.mem_of_getLast?_eq_some hg)
  have hr0 : r0 ∈ points := by
    obtain ⟨ys, hys⟩ := List.head?_eq_some_iff.mp hh
    exact hsubR r0 (by rw [hys]; exact List.mem_cons_self _ _)
  unfold mergeFrom at h
  cases hU : walkUp pts s2' fuel l0 r0 [] with
  | error e => rw [hU] at h; simp at h
  | ok w =>
  obtain ⟨tl, tr, prev1⟩ := w
  rw [hU] at h
  simp only [exc_bind_ok] at h
  cases hD : walkDown pts s2' fuel l0 r0 prev1 with
  | error e => rw [hD] at h; simp at h
  | ok w2 =>
  obtain ⟨bl, br, prev2⟩ := w2
  rw [hD] at h
  simp only [exc_bind_ok] at h
  injection h with h
  subst h
  obtain ⟨htl, htr, hprev1, htlp, htrp, hprev1p⟩ :=
    walkUp_closure pts s2' points hDcl fuel l0 r0 [] (tl, tr, prev1) hl0 hr0 hU
  obtain ⟨hbl, hbr, hprev2, hblp, hbrp, hprev2p⟩ :=
    walkDown_closure pts s2' points hDcl fuel l0 r0 prev1 (bl, br, prev2)
      hl0 hr0 hD
  have htlM : tl ∈ WL ++ WR := hMof tl htl (Or.inl htlp)
  have htrM : tr ∈ WL ++ WR := hMof tr htr (Or.inr htrp)
  have hblM : bl ∈ WL ++ WR := hMof bl hbl (Or.inr hblp)
  have hbrM : br ∈ WL ++ WR := hMof br hbr (Or.inl hbrp)
  have hprev1D : ∀ p ∈ prev1, p ∈ points := by
    intro p hp
    rcases hprev1 p hp with hp' | hp'
    · cases hp'
    · exact hp'
  have hprev2D : ∀ p ∈ prev2, p ∈ points := by
    intro p hp
    rcases hprev2 p hp with hp' | hp'
    · exact hprev1D p hp'
    · exact hp'
  have hprev1M : ∀ p ∈ prev1, p ∈ WL ++ WR := by
    intro p hp
    rcases hprev1p p hp with hp' | hp'
    · cases hp'
    · exact hMof p (hprev1D p hp) hp'
  have hprev2M : ∀ p ∈ prev2, p ∈ WL ++ WR := by
    intro p hp
    rcases hprev2p p hp with hp' | hp'
    · exact hprev1M p hp'
    · exact hMof p (hprev2D p hp) hp'
  have hFtl : tl ∉ prev2.filter
      (fun p => p ≠ tr && p ≠ tl && p ≠ br && p ≠ bl) := by
    simp [List.mem_filter]
  have hFtr : tr ∉ prev2.filter
      (fun p => p ≠ tr && p ≠ tl && p ≠ br && p ≠ bl) := by
    simp [List.mem_filter]
  have hFbl : bl ∉ prev2.filter
      (fun p => p ≠ tr && p ≠ tl && p ≠ br && p ≠ bl) := by
    simp [List.mem_filter]
  have hFbr : br ∉ prev2.filter
      (fun p => p ≠ tr && p ≠ tl && p ≠ br && p ≠ bl) := by
    simp [List.mem_filter]
  have hFM : ∀ i, i ∈ prev2.filter
      (fun p => p ≠ tr && p ≠ tl && p ≠ br && p ≠ bl) → i ∈ WL ++ WR :=
    fun i hi => hprev2M i (List.mem_of_mem_filter hi)
  refine ⟨WL ++ WR, hMsub, ?_, ?_, ?_⟩
  · intro i hiM
    have hFi : i ∉ prev2.filter
        (fun p => p ≠ tr && p ≠ tl && p ≠ br && p ≠ bl) :=
      fun hcon => hiM (hFM i hcon)
    have e1 : i ≠ bl := fun e => hiM (e ▸ hblM)
    have e2 : i ≠ tr := fun e => hiM (e ▸ htrM)
    have e3 : i ≠ br := fun e => hiM (e ▸ hbrM)
    have e4 : i ≠ tl := fun e => hiM (e ▸ htlM)
    rw [relinkAndPrune_ccw ord hord, relinkAndPrune_cw ord hord,
      if_neg hFi, if_neg hFi, if_neg e1, if_neg e2, if_neg e3, if_neg e4]
    exact hMout i hiM
  · intro i hiM
    constructor
    · intro j hj
      rw [relinkAndPrune_ccw ord hord] at hj
      by_cases hF : i ∈ prev2.filter
          (fun p => p ≠ tr && p ≠ tl && p ≠ br && p ≠ bl)
      · rw [if_pos hF] at hj
        cases hj
      · rw [if_neg hF] at hj
        by_cases e1 : i = bl
        · rw [if_pos e1] at hj
          injection hj with hj
          exact hj ▸ hbr
        · rw [if_neg e1] at hj
          by_cases e2 : i = tr
          · rw [if_pos e2] at hj
            injection hj with hj
            exact hj ▸ htl
          · rw [if_neg e2] at hj
            exact (hMrange i hiM).1 j hj
    · intro j hj
      rw [relinkAndPrune_cw ord hord] at hj
      by_cases hF : i ∈ prev2.filter
          (fun p => p ≠ tr && p ≠ tl && p ≠ br && p ≠ bl)
      · rw [if_pos hF] at hj
        cases hj
      · rw [if_neg hF] at hj
        by_cases e1 : i = br
        · rw [if_pos e1] at hj
          injection hj with hj
          exact hj ▸ hbl
        · rw [if_neg e1] at hj
          by_cases e2 : i = tl
          · rw [if_pos e2] at hj
            injection hj with hj
            exact hj ▸ htr
          · rw [if_neg e2] at hj
            exact (hMrange i hiM).2 j hj
  · intro s₂
    rw [buildHull_rec' pts ord fuel points s₂ h2 h3, hWLreplay s₂]
    simp only [exc_bind_ok]
    rw [hWRreplay (patch WL s1' s₂)]
    simp only [exc_bind_ok]
    rw [patch_patch WL WR s1' s2' s₂ hWRout]
    rw [seeds_some _ _ l0 r0 _ hg hh]
    have hag : ∀ i ∈ points, ∀ j,
        (s2'.ccwPoint i = some j → j ∈ points ∧
          (patch (WL ++ WR) s2' s₂).ccwPoint i = some j) ∧
        (s2'.cwPoint i = some j → j ∈ points ∧
          (patch (WL ++ WR) s2' s₂).cwPoint i = some j) := by
      intro i hi j
      constructor
      · intro hj
        have hiM : i ∈ WL ++ WR := hMof i hi (Or.inl (by rw [hj]; simp))
        refine ⟨(hMrange i hiM).1 j hj, ?_⟩
        show (if i ∈ WL ++ WR then s2'.ccwPoint i else s₂.ccwPoint i) = some j
        rw [if_pos hiM, hj]
      · intro hj
        have hiM : i ∈ WL ++ WR := hMof i hi (Or.inr (by rw [hj]; simp))
        refine ⟨(hMrange i hiM).2 j hj, ?_⟩
        show (if i ∈ WL ++ WR then s2'.cwPoint i else s₂.cwPoint i) = some j
        rw [if_pos hiM, hj]
    unfold mergeFrom
    rw [walkUp_sim pts s2' (patch (WL ++ WR) s2' s₂) points hag fuel l0 r0 []
      (tl, tr, prev1) hl0 hr0 hU]
    simp only [exc_bind_ok]
    rw [walkDown_sim pts s2' (patch (WL ++ WR) s2' s₂) points hag fuel l0 r0
      prev1 (bl, br, prev2) hl0 hr0 hD]
    simp only [exc_bind_ok]
    congr 1
    refine HState.ext_of _ _ ?_ ?_
    · funext i
      show _ = (patch (WL ++ WR) _ s₂).ccwPoint i
      simp only [patch]
      simp only [relinkAndPrune_ccw ord hord]
      by_cases hF : i ∈ prev2.filter
          (fun p => p ≠ tr && p ≠ tl && p ≠ br && p ≠ bl)
      · rw [if_pos hF, if_pos hF, if_pos (hFM i hF)]
      · rw [if_neg hF, if_neg hF]
        by_cases e1 : i = bl
        · rw [if_pos e1, if_pos (e1 ▸ hblM), if_pos e1]
        · rw [if_neg e1, if_neg e1]
          by_cases e2 : i = tr
          · rw [if_pos e2, if_pos (e2 ▸ htrM), if_pos e2]
          · rw [if_neg e2, if_neg e2]
    · funext i
      show _ = (patch (WL ++ WR) _ s₂).cwPoint i
      simp only [patch]
      simp only [relinkAndPrune_cw ord hord]
      by_cases hF : i ∈ prev2.filter
          (fun p => p ≠ tr && p ≠ tl && p ≠ br && p ≠ bl)
      · rw [if_pos hF, if_pos hF, if_pos (hFM i hF)]
      · rw [if_neg hF, if_neg hF]
        by_cases e1 : i = br
        · rw [if_pos e1, if_pos (e1 ▸ hbrM), if_pos e1]
        · rw [if_neg e1, if_neg e1]
          by_cases e2 : i = tl
          · rw [if_pos e2, if_pos (e2 ▸ htlM), if_pos e2]
          · rw [if_neg e2, if_neg e2]

/-- The replay lemma: a successful `buildHull` run on a duplicate-free
slice whose points start with both neighbour relations absent determines
a write set; replaying the run from any other neighbour state succeeds
and rewrites exactly that set with exactly the same values. -/
theorem buildHull_replay (pts : ℕ → Pt) (ord : List ℕ → List ℕ)
    (hord : ∀ l : List ℕ, (ord l).Perm l) :
    ∀ (fuel : ℕ) (slice : List ℕ) (s₁ t₁ : HState), slice.Nodup →
    Clean slice s₁ → buildHull pts ord fuel slice s₁ = Except.ok t₁ →
    ReplayOut pts ord fuel slice s₁ t₁ := by
  intro fuel
  induction fuel with
  | zero =>
    intro slice s₁ t₁ _ _ h
    exact absurd h (by simp [buildHull])
  | succ fuel IHf =>
    intro slice s₁ t₁ hnd hc h
    rcases slice with _ | ⟨p0, _ | ⟨p1, _ | ⟨p2, _ | ⟨p3, rest⟩⟩⟩⟩
    · exact replay_rec_aux pts ord hord fuel IHf [] (by simp) (by simp)
        s₁ t₁ hnd hc h
    · exact replay_rec_aux pts ord hord fuel IHf [p0] (by simp) (by simp)
        s₁ t₁ hnd hc h
    · exact replay_two pts ord fuel p0 p1 s₁ t₁ h
    · exact replay_three pts ord fuel p0 p1 p2 s₁ t₁ h
    · exact replay_rec_aux pts ord hord fuel IHf (p0 :: p1 :: p2 :: p3 :: rest)
        (by simp only [List.length_cons]; omega)
        (by simp only [List.length_cons]; omega) s₁ t₁ hnd hc h

/-- Claim C9: re-running `buildHull` on the same sorted input sequence, with
the neighbour state left by a completed first run, reproduces exactly
the same final state (hence the same set of points with present
neighbours and the same circular `ccwPoint` order — the rerun hull is
not merely isomorphic but identical).  The first run starts from the
freshly loaded all-absent state; the rerun's base cases overwrite every
pointer the first run wrote, and a completed first run never reads a
pointer it did not itself write, so the rerun retraces it exactly. -/
theorem buildHull_idempotent (pts : ℕ → Pt) (ord : List ℕ → List ℕ)
    (hord : ∀ l : List ℕ, (ord l).Perm l) (fuel : ℕ) (points : List ℕ)
    (s t : HState) (hnd : points.Nodup) (hc : Clean points s)
    (h : buildHull pts ord fuel points s = Except.ok t) :
    buildHull pts ord fuel points t = Except.ok t := by
  obtain ⟨W, _, _, _, hreplay⟩ :=
    buildHull_replay pts ord hord fuel points s t hnd hc h
  rw [hreplay t, patch_self]

/-- Witness for `buildHull_idempotent` on the four-point input: the
second run reproduces the first run's result. -/
theorem buildHull_idempotent_witness :
    (∀ l : List ℕ, (id l).Perm l) ∧ [0, 1, 2, 3].Nodup ∧
    Clean [0, 1, 2, 3] s0 ∧
    ((buildHull pts4 id 3 [0, 1, 2, 3] s0).bind fun t =>
      buildHull pts4 id 3 [0, 1, 2, 3] t) =
      buildHull pts4 id 3 [0, 1, 2, 3] s0 := by
  refine ⟨fun l => List.Perm.refl l, by decide, fun i _ => ⟨rfl, rfl⟩, ?_⟩
  cases hrun : buildHull pts4 id 3 [0, 1, 2, 3] s0 with
  | error e => rfl
  | ok t =>
    simp only [exc_bind_ok]
    exact buildHull_idempotent pts4 id (fun l => List.Perm.refl l) 3
      [0, 1, 2, 3] s0 t (by decide) (fun i _ => ⟨rfl, rfl⟩) hrun

end CH
